import Mathlib

/-!
Verification development for the Notion→Telegram mirror bot (`bot.py`).

Text is modelled as `List Char` (written `Str` below); Python strings map to
`Str` via `String.data` on Lean literals.  Every definition is a direct
transcription of the corresponding function in `bot.py`; collaborator calls
(Telegram sends/edits, `dateutil` parsing) are modelled as explicit inputs
(per-page behaviour records, a `parse : Str → Option Int` argument), and the
Notion database backing the mapping store is modelled as a list of rows.
-/

set_option autoImplicit false

namespace NotionTg

abbrev Str := List Char

/-- Python `str.strip()` whitespace set (ASCII portion). -/
def isPyWs (c : Char) : Bool :=
  c = ' ' || c = '\t' || c = '\n' || c = '\r' || c = '\x0b' || c = '\x0c'

/-- Python `str.strip()`: drop whitespace from both ends. -/
def pyStrip (l : Str) : Str :=
  ((l.dropWhile isPyWs).reverse.dropWhile isPyWs).reverse

/-- The characters escaped by `escape_markdown_v2` (`r'_*[]()~`>#+-=|{}.!'`). -/
def specialChars : Str := "_*[]()~`>#+-=|\x7b\x7d.!".data

def isSpecial (c : Char) : Bool := specialChars.contains c

/-- `escape_markdown_v2`: prefix every special character with a backslash
(`re.sub(r'([...])', r'\\\1', text)`). -/
def escape_markdown_v2 : Str → Str
  | [] => []
  | c :: rest =>
    (if isSpecial c then '\\' :: [c] else [c]) ++ escape_markdown_v2 rest

/-- Characters allowed in a Telegram handle (`[a-zA-Z0-9_]`). -/
def isHandleChar (c : Char) : Bool := c.isAlpha || c.isDigit || c = '_'

/-- State machine transcription of
`re.sub(r'@([a-zA-Z0-9_]+)', lambda m: '@' + m.group(1).replace('_', '\\_'), text)`:
the boolean state records whether we are inside a maximal handle run that
immediately follows an `@`; underscores inside such a run get a backslash. -/
def nickAux : Bool → Str → Str
  | _, [] => []
  | false, c :: rest =>
    if c = '@' then '@' :: nickAux true rest else c :: nickAux false rest
  | true, c :: rest =>
    if isHandleChar c then
      (if c = '_' then '\\' :: '_' :: nickAux true rest else c :: nickAux true rest)
    else if c = '@' then '@' :: nickAux true rest
    else c :: nickAux false rest

/-- `escape_telegram_nicknames`. -/
def escape_telegram_nicknames (l : Str) : Str := nickAux false l

/-- A rich-text segment: `plain_text`, optional `href`, and the five style
flags read from `annotations` in `_parse_rich_text`. -/
structure Seg where
  plain_text : Str
  href : Option Str
  bold : Bool
  italic : Bool
  strikethrough : Bool
  code : Bool
  underline : Bool
deriving DecidableEq

/-- A segment with no link and no style flags. -/
def plainSeg (s : Str) : Seg := ⟨s, none, false, false, false, false, false⟩

/-- Link wrapping at the end of the `_parse_rich_text` loop body
(`text = f"[{text}]({href})"` when `href` is set). -/
def applyLink (href : Option Str) (t : Str) : Str :=
  match href with
  | some h => '[' :: t ++ "](".data ++ h ++ [')']
  | none => t

/-- One iteration of the loop in `_parse_rich_text`: style wrapping by the
first matching flag (bold, italic, strikethrough, code, underline), the
escaping pass, nickname escaping, then link wrapping. -/
def parse_rich_text_one (escape : Bool) (seg : Seg) : Str :=
  let e := fun t => if escape then escape_markdown_v2 t else t
  let t0 :=
    if seg.bold then "*".data ++ e seg.plain_text ++ "*".data
    else if seg.italic then "_".data ++ e seg.plain_text ++ "_".data
    else if seg.strikethrough then "~".data ++ e seg.plain_text ++ "~".data
    else if seg.code then "`".data ++ e seg.plain_text ++ "`".data
    else if seg.underline then "__".data ++ e seg.plain_text ++ "__".data
    else e seg.plain_text
  let t1 := if escape then escape_telegram_nicknames t0 else t0
  applyLink seg.href t1

/-- `_parse_rich_text`: concatenation of the per-segment results. -/
def parse_rich_text (escape : Bool) (rt : List Seg) : Str :=
  (rt.map (parse_rich_text_one escape)).flatten

/-- `_parse_table_row`: cells joined by `" | "`, each rendered with
`escape=False`. -/
def parse_table_row (cells : List (List Seg)) : Str :=
  List.intercalate " | ".data (cells.map (parse_rich_text false))

/-- Content blocks handled by `parse_block`.  Toggle children carry nested
blocks (fetched by a collaborator call in the source); tables carry their
`table_row` children as cell matrices. -/
inductive Block where
  | paragraph (rt : List Seg)
  | heading (rt : List Seg)
  | bulleted (rt : List Seg)
  | numbered (rt : List Seg)
  | toggle (rt : List Seg) (children : List Block)
  | quote (rt : List Seg)
  | callout (emoji : Str) (rt : List Seg)
  | code (rt : List Seg) (lang : Str)
  | divider
  | image (url : Str)
  | table (rows : List (List (List Seg)))
  | tableRow (cells : List (List Seg))
  | unsupported

/-- `parse_block`, with fuel for the toggle recursion (any fuel at least the
nesting depth gives the source behaviour; fuel is only consumed at a toggle).
Note the `code` and `table` cases: the source lines 119 and 141 return
`f"``````\n\n"`, an f-string with no interpolation, so the computed text and
language are discarded. -/
def parse_block : Nat → Block → Str
  | 0, _ => []
  | Nat.succ fuel, b =>
    match b with
    | .paragraph rt => parse_rich_text true rt ++ "\n\n".data
    | .heading rt => "*".data ++ parse_rich_text true rt ++ "*\n\n".data
    | .bulleted rt => "\\- ".data ++ parse_rich_text true rt ++ "\n".data
    | .numbered rt => "1\\. ".data ++ parse_rich_text true rt ++ "\n".data
    | .toggle rt children =>
      let summary := parse_rich_text true rt
      let content := pyStrip (children.map (parse_block fuel)).flatten
      if content = [] then "||".data ++ summary ++ "||\n\n".data
      else "*".data ++ summary ++ "*\n||".data ++ content ++ "||\n\n".data
    | .quote rt => "> ".data ++ parse_rich_text true rt ++ "\n\n".data
    | .callout emoji rt => emoji ++ " ".data ++ parse_rich_text true rt ++ "\n\n".data
    | .code rt lang =>
      let text := parse_rich_text true rt
      let _ := text
      let _ := lang
      "``````\n\n".data
    | .divider => "------\n\n".data
    | .image url => "![](".data ++ url ++ ")\n\n".data
    | .table rows =>
      let table_text := List.intercalate "\n".data (rows.map parse_table_row)
      let _ := table_text
      "``````\n\n".data
    | .tableRow cells => parse_table_row cells
    | .unsupported => []

/-- `get_page_content`: join the non-empty rendered fragments and strip. -/
def get_page_content (fuel : Nat) (blocks : List Block) : Str :=
  pyStrip ((blocks.map (parse_block fuel)).filter (fun l => l ≠ [])).flatten

/-! ## Identifiers, URLs and timestamps -/

/-- Lowercase hex digit (`[0-9a-f]`, the class used by the 32-char searches in
`update_sync_database` and `get_sync_db_mapping`, which do not pass `re.I`). -/
def isHexLower (c : Char) : Bool := c.isDigit || ('a' ≤ c && c ≤ 'f')

/-- `re.search(r'([0-9a-f]{32})', url)`: leftmost window of 32 lowercase hex
characters. -/
def findHex32 : Str → Option Str
  | [] => none
  | c :: rest =>
    let w := (c :: rest).take 32
    if w.length = 32 && w.all isHexLower then some w else findHex32 rest

def digitChar : Nat → Char
  | 0 => '0' | 1 => '1' | 2 => '2' | 3 => '3' | 4 => '4'
  | 5 => '5' | 6 => '6' | 7 => '7' | 8 => '8' | 9 => '9'
  | _ => '?'

def digitVal (c : Char) : Nat := c.toNat - 48

/-- Decimal digits of `n`, with fuel (structural). -/
def natDigitsF : Nat → Nat → Str
  | 0, _ => []
  | Nat.succ f, n =>
    if n < 10 then [digitChar n]
    else natDigitsF f (n / 10) ++ [digitChar (n % 10)]

/-- Decimal rendering of a natural number (Python `str(int)` for the message
id interpolated into the Telegram URL). -/
def natDigits (n : Nat) : Str := natDigitsF (n + 1) n

/-- Value of a decimal digit string. -/
def digitsVal (l : Str) : Nat := l.foldl (fun a c => a * 10 + digitVal c) 0

/-- `re.search(r'/(\d+)$', tg_url)`: a nonempty trailing digit run preceded by
a `/`, converted with `int`. -/
def msgIdOfUrl (u : Str) : Option Nat :=
  let r := u.reverse
  let ds := r.takeWhile Char.isDigit
  if ds = [] then none
  else
    match r.drop ds.length with
    | '/' :: _ => some (digitsVal ds.reverse)
    | _ => none

/-- `TELEGRAM_CHAT_ID.replace('-100', '')` (left-to-right, non-overlapping). -/
def stripChat : Str → Str
  | '-' :: '1' :: '0' :: '0' :: rest => stripChat rest
  | c :: rest => c :: stripChat rest
  | [] => []

/-- The Telegram post URL `f"https://t.me/c/{chat'}/{tg_post_id}"`. -/
def tgUrlOf (chat : Str) (n : Nat) : Str :=
  "https://t.me/c/".data ++ stripChat chat ++ '/' :: natDigits n

/-- The Notion URL `f"https://www.notion.so/{page_id}"` written to sync rows. -/
def notionUrl (pid : Str) : Str := "https://www.notion.so/".data ++ pid

/-- `SKIP_TITLE_PREFIXES = ["[DRAFT]", "[TG_SYNC]"]`. -/
def SKIP_TITLE_PREFIXES : List Str := ["[DRAFT]".data, "[TG_SYNC]".data]

/-- `title.strip().startswith(tuple(SKIP_TITLE_PREFIXES))` (applied to the
already-stripped title). -/
def startsWithSkip (t : Str) : Bool :=
  SKIP_TITLE_PREFIXES.any (fun p => p.isPrefixOf t)

/-- `_normalize_page_id`: `page_id.replace("-", "")`. -/
def normalize_page_id (l : Str) : Str := l.filter (fun c => c ≠ '-')

/-- Possible inputs of `_to_timestamp`: `None`, a number, or a string. -/
inductive TsVal where
  | null
  | num (i : Int)
  | str (s : Str)

/-- `_to_timestamp`, with `date_parser.parse(dt).timestamp()` modelled by the
`parse` argument (`none` models a parse failure, which the `except` turns
into 0).  `if not dt` makes `None`, `0` and `""` all map to 0. -/
def to_timestamp (parse : Str → Option Int) : TsVal → Int
  | .null => 0
  | .num i => if i = 0 then 0 else i
  | .str s =>
    if s = [] then 0
    else match parse s with
      | some t => t
      | none => 0

/-- Lift the optional timestamp strings used by `sync` into `TsVal`. -/
def tsOf : Option Str → TsVal
  | none => .null
  | some s => .str s

/-! ## The mapping store -/

/-- An in-memory mapping entry (`self.pinned[page_id]`): `message_id` is
`""` (`none`) or an int; `title` is absent (`none`) on the entries written by
`create_post` and the edit path. -/
structure Entry where
  message_id : Option Nat
  last_edited : Option Str
  title : Option Str
deriving DecidableEq

abbrev AList := List (Str × Entry)

/-- First-match association lookup (Python dict access). -/
def alookup {β : Type} : List (Str × β) → Str → Option β
  | [], _ => none
  | (k, v) :: rest, q => if k = q then some v else alookup rest q

/-- Python dict assignment: replace in place, else append. -/
def aset {β : Type} : List (Str × β) → Str → β → List (Str × β)
  | [], k, v => [(k, v)]
  | (k', v') :: rest, k, v =>
    if k' = k then (k, v) :: rest else (k', v') :: aset rest k v

/-- `self.pinned.get(page_id, {}).get("message_id", "")`. -/
def pinnedMsgId (pinned : AList) (pid : Str) : Option Nat :=
  match alookup pinned pid with
  | some e => e.message_id
  | none => none

/-- `self.pinned.get(page_id, {}).get("last_edited")`. -/
def pinnedLE (pinned : AList) (pid : Str) : Option Str :=
  match alookup pinned pid with
  | some e => e.last_edited
  | none => none

/-- Python truthiness of `tg_post_id` (`""` or an int; `0` is falsy). -/
def truthy : Option Nat → Bool
  | none => false
  | some n => n ≠ 0

/-- `x if x else None` on a string. -/
def optStr (l : Str) : Option Str := if l = [] then none else some l

/-- One row of the sync database: the `Страница` title text and its link, the
`Telegram` url, the `Обновлено` date start, and the archived flag.  (Rows
whose title list is empty are skipped by the source and not modelled.) -/
structure Row where
  row_id : Nat
  title : Str
  href : Option Str
  tg_url : Option Str
  date_start : Option Str
  archived : Bool
deriving DecidableEq

/-- One tuple of `sync_data`: `(title, notion_url, tg_url, last_edited)`. -/
abbrev SyncTuple := Str × Str × Str × Option Str

/-- One step of building `existing_rows` in `update_sync_database`: active
rows only (a Notion database query omits archived rows), page id extracted
from the title link. -/
def erStep (acc : List (Str × Nat)) (r : Row) : List (Str × Nat) :=
  if r.archived then acc
  else
    match r.href with
    | none => acc
    | some u =>
      if u = [] then acc
      else
        match findHex32 u with
        | some pid => aset acc pid r.row_id
        | none => acc

def existing_rows_go : List (Str × Nat) → List Row → List (Str × Nat)
  | acc, [] => acc
  | acc, r :: rest => existing_rows_go (erStep acc r) rest

/-- The `existing_rows` dict of `update_sync_database`. -/
def existing_rows (db : List Row) : List (Str × Nat) := existing_rows_go [] db

/-- `page_ids_in_data`: ids extracted from the notion urls of `sync_data`
(`""` when the search fails). -/
def data_ids : List SyncTuple → List Str
  | [] => []
  | (_, nu, _, _) :: rest => ((findHex32 nu).getD []) :: data_ids rest

/-- The upsert loop of `update_sync_database`: update the row found in
`existing_rows`, else create a new row (fresh `row_id` from the counter). -/
def upsert_rows (ex : List (Str × Nat)) : List Row → Nat → List SyncTuple → List Row × Nat
  | db, c, [] => (db, c)
  | db, c, (t, nu, tu, dt) :: rest =>
    let pid := (findHex32 nu).getD []
    match alookup ex pid with
    | some rid =>
      upsert_rows ex
        (db.map (fun r => if r.row_id = rid then ⟨rid, t, some nu, optStr tu, dt, r.archived⟩ else r))
        c rest
    | none =>
      upsert_rows ex (db ++ [⟨c, t, some nu, optStr tu, dt, false⟩]) (c + 1) rest

/-- The archive loop of `update_sync_database`: every `existing_rows` entry
whose page id is not in `page_ids_in_data` has its row archived. -/
def archive_rows (ids : List Str) : List (Str × Nat) → List Row → List Row
  | [], db => db
  | (pid, rid) :: ex, db =>
    archive_rows ids ex
      (if ids.contains pid then db
       else db.map (fun r => if r.row_id = rid then ⟨r.row_id, r.title, r.href, r.tg_url, r.date_start, true⟩ else r))

/-- `update_sync_database`: early return on empty `sync_data`, else upserts
followed by the archive pass. -/
def update_sync_database (db : List Row) (sd : List SyncTuple) (c : Nat) : List Row × Nat :=
  if sd = [] then (db, c)
  else
    let ex := existing_rows db
    let dbc := upsert_rows ex db c sd
    (archive_rows (data_ids sd) ex dbc.1, dbc.2)

/-- One step of `get_sync_db_mapping`: skip archived rows (query omits them)
and rows without an extractable page id; parse the message id out of the
Telegram url. -/
def gsdmStep (acc : AList) (r : Row) : AList :=
  if r.archived then acc
  else
    let nurl := r.href.getD []
    if nurl = [] then acc
    else
      match findHex32 nurl with
      | none => acc
      | some pid =>
        let mid : Option Nat :=
          match r.tg_url with
          | none => none
          | some tu => if tu = [] then none else msgIdOfUrl tu
        aset acc pid ⟨mid, r.date_start, some r.title⟩

def gsdm_go : AList → List Row → AList
  | acc, [] => acc
  | acc, r :: rest => gsdm_go (gsdmStep acc r) rest

/-- `get_sync_db_mapping`: page_id → {message_id, last_edited, title}. -/
def get_sync_db_mapping (db : List Row) : AList := gsdm_go [] db

/-! ## The sync reconciler -/

/-- A destination (Telegram) call issued during a pass.  `unpin` and `del`
carry the possibly-empty stored message id they were attempted with. -/
inductive Action where
  | send (text : Str)
  | pin (n : Nat)
  | edit (n : Nat) (text : Str)
  | unpin (m : Option Nat)
  | del (m : Option Nat)
deriving DecidableEq

/-- Outcome of a `create_post` attempt: the send fails, or the send returns a
message id but the pin fails, or both succeed. -/
inductive CreateRes where
  | sendFail
  | sentPinFail (n : Nat)
  | ok (n : Nat)

/-- Destination behaviour for one page during a pass: whether the edit and
the subsequent pin succeed, and the outcome of a `create_post` if reached. -/
structure PageBehavior where
  edit_ok : Bool
  pin_ok : Bool
  create : CreateRes

/-- A Notion source page as consumed by `sync`: raw id (hyphens possible),
title, `last_edited_time`, and its top-level blocks. -/
structure Page where
  id : Str
  title : Str
  last_edited : Option Str
  blocks : List Block

/-- `create_post`: send, then pin; `self.pinned[page_id]` is updated only
when both succeed (an exception from either call skips the update). -/
def create_post (pid : Str) (text : Str) (le : Option Str) (res : CreateRes)
    (pinned : AList) : List Action × AList :=
  match res with
  | .sendFail => ([.send text], pinned)
  | .sentPinFail n => ([.send text, .pin n], pinned)
  | .ok n => ([.send text, .pin n], aset pinned pid ⟨some n, le, none⟩)

/-- The message text built on line 344:
`f"*{escape_markdown_v2(title)}*\n\n{content}" if content else f"*{escape_markdown_v2(title)}*"`. -/
def messageOf (fuel : Nat) (p : Page) : Str :=
  let content := get_page_content fuel p.blocks
  if content = [] then "*".data ++ escape_markdown_v2 p.title ++ "*".data
  else "*".data ++ escape_markdown_v2 p.title ++ "*\n\n".data ++ content

/-- The body of `sync`'s per-page loop (lines 318–372): skip excluded titles,
compare timestamps, edit-and-pin with fallback to `create_post`, and append
the page's `sync_data` tuple. -/
def processPage (parse : Str → Option Int) (chat : Str) (fuel : Nat)
    (b : PageBehavior) (pinned : AList) (p : Page) :
    List Action × AList × List SyncTuple :=
  let pid := normalize_page_id p.id
  if startsWithSkip (pyStrip p.title) then ([], pinned, [])
  else
    let le := p.last_edited
    let tg0 := pinnedMsgId pinned pid
    let tgUrl0 := if truthy tg0 then tgUrlOf chat (tg0.getD 0) else []
    if to_timestamp parse (tsOf le) ≠ to_timestamp parse (tsOf (pinnedLE pinned pid)) then
      let message := messageOf fuel p
      if truthy tg0 then
        let m := tg0.getD 0
        if b.edit_ok && b.pin_ok then
          ([.edit m message, .pin m],
           aset pinned pid ⟨some m, le, none⟩,
           [(p.title, notionUrl pid, tgUrlOf chat m, le)])
        else
          let acts1 := [Action.edit m message] ++ (if b.edit_ok then [Action.pin m] else [])
          let cp := create_post pid message le b.create pinned
          let tg1 := pinnedMsgId cp.2 pid
          let tgUrl1 := if truthy tg1 then tgUrlOf chat (tg1.getD 0) else []
          (acts1 ++ cp.1, cp.2, [(p.title, notionUrl pid, tgUrl1, le)])
      else
        let cp := create_post pid message le b.create pinned
        let tg1 := pinnedMsgId cp.2 pid
        let tgUrl1 := if truthy tg1 then tgUrlOf chat (tg1.getD 0) else []
        (cp.1, cp.2, [(p.title, notionUrl pid, tgUrl1, le)])
    else
      ([], pinned, [(p.title, notionUrl pid, tgUrl0, le)])

/-- The whole per-page loop: accumulates destination actions, the mutated
`self.pinned`, `current_page_ids` (added before the exclusion check) and
`sync_data`. -/
def processPages (parse : Str → Option Int) (chat : Str) (fuel : Nat)
    (bfun : Str → PageBehavior) :
    AList → List Page → List Action × AList × List Str × List SyncTuple
  | pinned, [] => ([], pinned, [], [])
  | pinned, p :: rest =>
    let pid := normalize_page_id p.id
    let r := processPage parse chat fuel (bfun pid) pinned p
    let rs := processPages parse chat fuel bfun r.2.1 rest
    (r.1 ++ rs.1, rs.2.1, pid :: rs.2.2.1, r.2.2 ++ rs.2.2.2)

/-- `cleanup_posts`: for every pinned id not in `current_ids`, attempt unpin
and delete (each in its own `try`, results ignored — the `uOk`/`dOk` oracles
model their success and are discarded like the source's `except: log`), then
delete the id from `self.pinned`. -/
def cleanup_posts (uOk dOk : Option Nat → Bool) :
    AList → List Str → List Action × AList
  | [], _ => ([], [])
  | (pid, e) :: rest, cur =>
    let r := cleanup_posts uOk dOk rest cur
    if cur.contains pid then (r.1, (pid, e) :: r.2)
    else
      let _u := uOk e.message_id
      let _d := dOk e.message_id
      ([Action.unpin e.message_id, Action.del e.message_id] ++ r.1, r.2)

/-- One `sync` pass: the per-page loop, `cleanup_posts(current_page_ids)`,
then — only when `sync_data` is nonempty — `update_sync_database` and the
reload of `self.pinned` from the store. -/
def sync (parse : Str → Option Int) (chat : Str) (fuel : Nat)
    (bfun : Str → PageBehavior) (uOk dOk : Option Nat → Bool)
    (pinned0 : AList) (db : List Row) (c : Nat) (pages : List Page) :
    List Action × AList × List Row × Nat :=
  let lp := processPages parse chat fuel bfun pinned0 pages
  let cl := cleanup_posts uOk dOk lp.2.1 lp.2.2.1
  if lp.2.2.2 = [] then (lp.1 ++ cl.1, cl.2, db, c)
  else
    let dbc := update_sync_database db lp.2.2.2 c
    (lp.1 ++ cl.1, get_sync_db_mapping dbc.1, dbc.1, dbc.2)

/-! ## Concrete scenario inputs -/

/-- A concrete chat id of the usual `-100…` shape. -/
def chat0 : Str := "-100777".data

/-- A concrete date parser for the closed scenarios. -/
def parse0 : Str → Option Int := fun _ => some 1

/-- Destination behaviour where every call succeeds and a created message
gets id `n`. -/
def okBehavior (n : Nat) : PageBehavior := ⟨true, true, CreateRes.ok n⟩

def hexA : Str := List.replicate 32 'a'
def hexB : Str := List.replicate 32 'b'
def hexC : Str := List.replicate 32 'c'

/-- The C9 scenario page: titled `Hello`, one paragraph `World`, fresh. -/
def c9page : Page := ⟨hexA, "Hello".data, some "2024".data, [Block.paragraph [plainSeg "World".data]]⟩

def c9res := sync parse0 chat0 10 (fun _ => okBehavior 7) (fun _ => true) (fun _ => true)
  [] [] 0 [c9page]

/-! C2 counterexample scenario: one synced page whose timestamp is unchanged
but whose title changed from `A` to `B`. -/

def c2db : List Row :=
  [⟨0, "A".data, some (notionUrl hexB), some (tgUrlOf chat0 5), some "T".data, false⟩]

def c2pinned : AList := get_sync_db_mapping c2db

def c2res := sync parse0 chat0 10 (fun _ => okBehavior 9) (fun _ => true) (fun _ => true)
  c2pinned c2db 1 [⟨hexB, "B".data, some "T".data, []⟩]


/-! C1 counterexample scenario: two synced pages; `P` is still present but its
title now carries the `[DRAFT]` exclusion prefix, `Q` is unchanged. -/

def c1db : List Row :=
  [⟨0, "P".data, some (notionUrl hexB), some (tgUrlOf chat0 3), some "T".data, false⟩,
   ⟨1, "Q".data, some (notionUrl hexC), some (tgUrlOf chat0 4), some "T".data, false⟩]

def c1pinned : AList := get_sync_db_mapping c1db

def c1pages : List Page :=
  [⟨hexC, "Q".data, some "T".data, []⟩, ⟨hexB, "[DRAFT] P".data, some "T2".data, []⟩]

def c1res := sync parse0 chat0 10 (fun _ => okBehavior 9) (fun _ => true) (fun _ => true)
  c1pinned c1db 2 c1pages


/-! C4 scenario: a fresh page whose `create_post` send fails. -/

def c4page : Page := ⟨hexA, "T".data, some "X".data, []⟩

def c4res := sync parse0 chat0 10 (fun _ => PageBehavior.mk true true CreateRes.sendFail)
  (fun _ => true) (fun _ => true) [] [] 0 [c4page]

def c4res2 := sync parse0 chat0 10 (fun _ => PageBehavior.mk true true CreateRes.sendFail)
  (fun _ => true) (fun _ => true) c4res.2.1 c4res.2.2.1 c4res.2.2.2 [c4page]


/-! C6 scenario: a synced page with message 5 whose timestamp moved and
whose edit fails; the fallback send returns message 8. -/

def c6parse : Str → Option Int := fun s => if s = "X".data then some 2 else some 1

def c6page : Page := ⟨hexB, "T".data, some "X".data, []⟩

def c6pinned : AList := [(hexB, ⟨some 5, some "S".data, none⟩)]

/-! C5 witness scenario: one leftover mapping entry, empty current set. -/

def c5pinned : AList := [(hexB, ⟨some 5, some "S".data, some "P".data⟩)]

/-! ## Specification predicates -/

/-- Every special character in the list is immediately preceded by a
backslash; `prev` is the character before the head (if any). -/
def pOkAux : Option Char → Str → Bool
  | _, [] => true
  | prev, c :: rest => (!(isSpecial c) || prev == some '\\') && pOkAux (some c) rest

/-- `BsIns l l'`: `l'` is `l` with a backslash inserted in front of some of
its underscores (the only rewriting `escape_telegram_nicknames` can do). -/
inductive BsIns : Str → Str → Prop where
  | nil : BsIns [] []
  | keep (c : Char) {l l' : Str} : BsIns l l' → BsIns (c :: l) (c :: l')
  | ins {l l' : Str} : BsIns l l' → BsIns ('_' :: l) ('\\' :: '_' :: l')

/-- The page id a row contributes to `existing_rows` and
`get_sync_db_mapping`: `none` for archived rows (the query omits them),
missing/empty links, and failed 32-hex searches. -/
def rowPid (r : Row) : Option Str :=
  if r.archived then none
  else
    match r.href with
    | none => none
    | some u => if u = [] then none else findHex32 u

/-- The message id `get_sync_db_mapping` reads out of a row's Telegram url. -/
def midOf (r : Row) : Option Nat :=
  match r.tg_url with
  | none => none
  | some tu => if tu = [] then none else msgIdOfUrl tu

/-- The mapping entry `get_sync_db_mapping` builds from a row. -/
def entryOf (r : Row) : Entry := ⟨midOf r, r.date_start, some r.title⟩

/-- The page ids of the active, extractable rows, in db order. -/
def activePids (db : List Row) : List Str := db.filterMap rowPid

/-- The rows `update_sync_database` creates for `sync_data` when nothing
matches `existing_rows` (fresh consecutive row ids). -/
def createdRows : Nat → List SyncTuple → List Row
  | _, [] => []
  | c, (t, nu, tu, dt) :: rest => ⟨c, t, some nu, optStr tu, dt, false⟩ :: createdRows (c + 1) rest

/-- A normalized 32-character lowercase hex page identifier. -/
def isHex32 (pid : Str) : Bool := pid.length = 32 && pid.all isHexLower

/-- The (title, notion url, timestamp) projection of a `sync_data` tuple. -/
def tupKey (tup : SyncTuple) : Str × Str × Option Str := (tup.1, tup.2.1, tup.2.2.2)

/-! ## Theorems -/

theorem alookup_aset_self {β : Type} (l : List (Str × β)) (k : Str) (v : β) :
    alookup (aset l k v) k = some v := by
  induction l with
  | nil => simp [aset, alookup]
  | cons hd tl ih =>
    by_cases h : hd.1 = k <;> simp [aset, alookup, h, ih]

theorem alookup_aset_ne {β : Type} (l : List (Str × β)) (k q : Str) (v : β)
    (h : k ≠ q) : alookup (aset l k v) q = alookup l q := by
  induction l with
  | nil => simp [aset, alookup, h]
  | cons hd tl ih =>
    by_cases h1 : hd.1 = k
    · simp [aset, alookup, h1, h]
    · by_cases h2 : hd.1 = q <;> simp [aset, alookup, h1, h2, Ne.symm h, ih]

theorem mem_aset {β : Type} (l : List (Str × β)) (k : Str) (v : β)
    (pe : Str × β) (h : pe ∈ aset l k v) : pe = (k, v) ∨ pe ∈ l := by
  induction l with
  | nil => simpa [aset] using h
  | cons hd tl ih =>
    by_cases h1 : hd.1 = k
    · simp [aset, h1] at h
      rcases h with h | h
      · exact Or.inl h
      · exact Or.inr (List.mem_cons_of_mem _ h)
    · simp [aset, h1] at h
      rcases h with h | h
      · exact Or.inr (by simp [h])
      · rcases ih h with h' | h'
        · exact Or.inl h'
        · exact Or.inr (List.mem_cons_of_mem _ h')

/-- C3: the `code` branch of `parse_block` returns the constant
``` `````` ``` fence and two newlines — the f-string on line 119 has no
interpolation — so the rendered fragment does not contain the block's raw
text (here `x`), contradicting the claim that the fenced block contains the
raw text. -/
theorem C3_code_block_constant_fence :
    parse_block 1 (Block.code [plainSeg "x".data] "python".data) = "``````\n\n".data
    ∧ 'x' ∉ parse_block 1 (Block.code [plainSeg "x".data] "python".data) := by
  exact ⟨rfl, by decide⟩

/-- C8: style precedence in `_parse_rich_text` is bold > italic >
strikethrough > code > underline > none, and exactly one marker is applied:
a bold run renders with only the bold marker whatever the other flags say,
an italic non-bold run with only the italic marker, and so on. -/
theorem C8_style_precedence (s : Str) (h : Option Str) (i st cd ul : Bool) :
    parse_rich_text_one true ⟨s, h, true, i, st, cd, ul⟩
      = applyLink h (escape_telegram_nicknames ("*".data ++ escape_markdown_v2 s ++ "*".data))
    ∧ parse_rich_text_one true ⟨s, h, false, true, st, cd, ul⟩
      = applyLink h (escape_telegram_nicknames ("_".data ++ escape_markdown_v2 s ++ "_".data))
    ∧ parse_rich_text_one true ⟨s, h, false, false, true, cd, ul⟩
      = applyLink h (escape_telegram_nicknames ("~".data ++ escape_markdown_v2 s ++ "~".data))
    ∧ parse_rich_text_one true ⟨s, h, false, false, false, true, ul⟩
      = applyLink h (escape_telegram_nicknames ("`".data ++ escape_markdown_v2 s ++ "`".data))
    ∧ parse_rich_text_one true ⟨s, h, false, false, false, false, true⟩
      = applyLink h (escape_telegram_nicknames ("__".data ++ escape_markdown_v2 s ++ "__".data))
    ∧ parse_rich_text_one true ⟨s, h, false, false, false, false, false⟩
      = applyLink h (escape_telegram_nicknames (escape_markdown_v2 s)) := by
  refine ⟨?_, ?_, ?_, ?_, ?_, ?_⟩ <;> simp [parse_rich_text_one]

/-- C10: `_to_timestamp` is total, mapping `None`, `""` and unparseable
strings to 0; consequently a page with such a timestamp and no stored record
compares 0 to 0, is treated as unchanged, and gets no destination call and
no pinned-map change from the per-page step. -/
theorem C10_to_timestamp_total (parse : Str → Option Int) :
    to_timestamp parse TsVal.null = 0
    ∧ to_timestamp parse (TsVal.str []) = 0
    ∧ (∀ s : Str, parse s = none → to_timestamp parse (TsVal.str s) = 0)
    ∧ (∀ (chat : Str) (fuel : Nat) (b : PageBehavior) (pinned : AList) (p : Page),
        alookup pinned (normalize_page_id p.id) = none →
        (p.last_edited = none ∨ p.last_edited = some []
          ∨ ∃ s, p.last_edited = some s ∧ parse s = none) →
        (processPage parse chat fuel b pinned p).1 = []
        ∧ (processPage parse chat fuel b pinned p).2.1 = pinned) := by
  refine ⟨rfl, rfl, ?_, ?_⟩
  · intro s hs
    by_cases h0 : s = [] <;> simp [to_timestamp, h0, hs]
  · intro chat fuel b pinned p hlook hle
    have hts : to_timestamp parse (tsOf p.last_edited) = 0 := by
      rcases hle with h | h | ⟨s, hs, hps⟩
      · simp [h, tsOf, to_timestamp]
      · simp [h, tsOf, to_timestamp]
      · by_cases h0 : s = [] <;> simp [hs, tsOf, to_timestamp, h0, hps]
    have hprev : pinnedLE pinned (normalize_page_id p.id) = none := by
      simp [pinnedLE, hlook]
    by_cases hskip : startsWithSkip (pyStrip p.title)
    · constructor <;> simp [processPage, hskip]
    · have hcond : ¬ (to_timestamp parse (tsOf p.last_edited)
          ≠ to_timestamp parse (tsOf (pinnedLE pinned (normalize_page_id p.id)))) := by
        rw [hprev, hts]
        simp [tsOf, to_timestamp]
      constructor <;> simp [processPage, hskip, hcond]

/-- C10 witness: the unparseable-timestamp page at concrete inputs. -/
theorem C10_witness :
    to_timestamp (fun _ => none) (TsVal.str "junk".data) = 0
    ∧ (processPage (fun _ => none) chat0 1 (okBehavior 1) []
        ⟨hexA, "G".data, some "junk".data, []⟩).1 = [] := by
  refine ⟨(C10_to_timestamp_total _).2.2.1 _ rfl, ?_⟩
  exact ((C10_to_timestamp_total (fun _ => none)).2.2.2 chat0 1 (okBehavior 1) []
    ⟨hexA, "G".data, some "junk".data, []⟩ rfl
    (Or.inr (Or.inr ⟨"junk".data, rfl, rfl⟩))).1

/-- C9: the concrete scenario — a page titled `Hello` with one paragraph
`World` and no prior record: one pass sends exactly one message with text
`*Hello*\n\nWorld`, pins it, and the reloaded mapping holds the new message
id 7 and the page's timestamp. -/
theorem C9_hello_world :
    c9res.1 = [Action.send ("*Hello*\n\nWorld".data), Action.pin 7]
    ∧ alookup c9res.2.1 hexA = some ⟨some 7, some "2024".data, some "Hello".data⟩ := by
  constructor <;> rfl

/-- C2 counterexample: the page's timestamp string `T` equals the stored one,
and the pass issues zero destination calls — but the mapping entry is NOT
left unchanged: the persist step rewrites the row from the current page data,
so the reloaded entry's title flips from `A` to `B`. -/
theorem C2_counterexample :
    alookup c2pinned hexB = some ⟨some 5, some "T".data, some "A".data⟩
    ∧ c2res.1 = []
    ∧ alookup c2res.2.1 hexB = some ⟨some 5, some "T".data, some "B".data⟩
    ∧ alookup c2res.2.1 hexB ≠ alookup c2pinned hexB := by
  exact ⟨rfl, rfl, rfl, by decide⟩

/-- C1 counterexample: page `P` was previously synced; its title now starts
with the exclusion prefix `[DRAFT]`.  The pass issues no unpin/delete at all
(the cleanup set is empty, because `current_page_ids` receives `P` before the
exclusion check), yet `P`'s store row IS archived by the persist step
(`P` is absent from `sync_data`).  The two "no longer present" sets differ,
so the claimed equality fails. -/
theorem C1_counterexample :
    alookup c1pinned hexB = some ⟨some 3, some "T".data, some "P".data⟩
    ∧ c1res.1 = []
    ∧ (⟨0, "P".data, some (notionUrl hexB), some (tgUrlOf chat0 3), some "T".data, true⟩ : Row)
        ∈ c1res.2.2.1 := by
  exact ⟨rfl, rfl, by decide⟩

/-- C4: a page with a new timestamp and no prior record whose create attempt
fails: the send is attempted, but line 369 appends the page with its NEW
timestamp to `sync_data` regardless, so the store is persisted with the new
timestamp (entry `⟨none, "X", "T"⟩` — no message id, advanced timestamp) and
the next pass computes `changed = false` and issues no retry, contradicting
the claimed self-healing. -/
theorem C4_failed_create_persists_timestamp :
    c4res.1 = [Action.send ("*T*".data)]
    ∧ alookup c4res.2.1 hexA = some ⟨none, some "X".data, some "T".data⟩
    ∧ c4res2.1 = [] := by
  exact ⟨rfl, rfl, rfl⟩

/-- The fully-successful fallback case: when the edit fails and the fallback
send AND its pin both succeed, the per-page step attempts the edit, then
send + pin, the in-memory mapping entry is updated to the new message id,
and the `sync_data` tuple references the new id's URL.  (This is only the
`CreateRes.ok` case; see the pin-failure case below, where the mapping keeps
the old identifier.) -/
theorem edit_fallback_ok_case (parse : Str → Option Int) (chat : Str) (fuel : Nat)
    (b : PageBehavior) (pinned : AList) (p : Page) (e : Entry) (m n : Nat)
    (hskip : startsWithSkip (pyStrip p.title) = false)
    (hlook : alookup pinned (normalize_page_id p.id) = some e)
    (hmid : e.message_id = some m) (hm : m ≠ 0)
    (hch : to_timestamp parse (tsOf p.last_edited) ≠ to_timestamp parse (tsOf e.last_edited))
    (hedit : b.edit_ok = false) (hcreate : b.create = CreateRes.ok n) (hn : n ≠ 0) :
    (processPage parse chat fuel b pinned p).1
      = [Action.edit m (messageOf fuel p), Action.send (messageOf fuel p), Action.pin n]
    ∧ pinnedMsgId (processPage parse chat fuel b pinned p).2.1 (normalize_page_id p.id) = some n
    ∧ (processPage parse chat fuel b pinned p).2.2
      = [(p.title, notionUrl (normalize_page_id p.id), tgUrlOf chat n, p.last_edited)] := by
  have hLE : pinnedLE pinned (normalize_page_id p.id) = e.last_edited := by
    simp [pinnedLE, hlook]
  have hMsg : pinnedMsgId pinned (normalize_page_id p.id) = some m := by
    simp [pinnedMsgId, hlook, hmid]
  have htr : truthy (pinnedMsgId pinned (normalize_page_id p.id)) = true := by
    rw [hMsg]; simp [truthy, hm]
  have hget : (pinnedMsgId pinned (normalize_page_id p.id)).getD 0 = m := by
    rw [hMsg]; rfl
  have haset : pinnedMsgId
      (aset pinned (normalize_page_id p.id) ⟨some n, p.last_edited, none⟩)
      (normalize_page_id p.id) = some n := by
    simp [pinnedMsgId, alookup_aset_self]
  have htrn : truthy (some n) = true := by simp [truthy, hn]
  have htrm : truthy (some m) = true := by simp [truthy, hm]
  refine ⟨?_, ?_, ?_⟩ <;>
    simp [processPage, hskip, hLE, hch, htr, hget, hMsg, haset, htrn, htrm,
      hedit, hcreate, create_post]

/-- C6: the claim fails on the code when the fallback pin fails.  At the
concrete failing input — a changed page with existing message 5 whose edit
fails, whose fallback send succeeds returning message 8 and whose subsequent
pin raises — a brand-new destination message IS created (the send action is
issued), but `create_post` updates `self.pinned` only after the pin call, so
the mapping entry still references the OLD identifier 5, and the `sync_data`
tuple persists the old message's URL together with the NEW timestamp (so the
next pass computes `changed = false` and never heals).  The old identifier
remains referenced, contradicting the claim. -/
theorem C6_pin_fail_keeps_old_reference :
    (processPage c6parse chat0 1 ⟨false, true, CreateRes.sentPinFail 8⟩ c6pinned c6page).1
      = [Action.edit 5 (messageOf 1 c6page), Action.send (messageOf 1 c6page), Action.pin 8]
    ∧ (processPage c6parse chat0 1 ⟨false, true, CreateRes.sentPinFail 8⟩ c6pinned c6page).2.1
      = c6pinned
    ∧ pinnedMsgId
        (processPage c6parse chat0 1 ⟨false, true, CreateRes.sentPinFail 8⟩ c6pinned c6page).2.1
        hexB = some 5
    ∧ (processPage c6parse chat0 1 ⟨false, true, CreateRes.sentPinFail 8⟩ c6pinned c6page).2.2
      = [("T".data, notionUrl hexB, tgUrlOf chat0 5, some "X".data)] := by
  exact ⟨rfl, rfl, rfl, rfl⟩

theorem alookup_mem {β : Type} (l : List (Str × β)) (k : Str) (v : β)
    (h : alookup l k = some v) : (k, v) ∈ l := by
  induction l with
  | nil => simp [alookup] at h
  | cons hd tl ih =>
    obtain ⟨k', v'⟩ := hd
    by_cases h1 : k' = k
    · simp [alookup, h1] at h
      simp [h1, h]
    · simp [alookup, h1] at h
      exact List.mem_cons_of_mem _ (ih h)

theorem alookup_cleanup_none (uOk dOk : Option Nat → Bool) (l : AList)
    (cur : List Str) (pid : Str) (h : cur.contains pid = false) :
    alookup (cleanup_posts uOk dOk l cur).2 pid = none := by
  induction l with
  | nil => simp [cleanup_posts, alookup]
  | cons hd tl ih =>
    obtain ⟨k, v⟩ := hd
    have h' : pid ∉ cur := by simpa using h
    by_cases hc : k ∈ cur
    · have hk : k ≠ pid := fun hEq => h' (hEq ▸ hc)
      simp [cleanup_posts, hc, alookup, hk, ih]
    · simp [cleanup_posts, hc, ih]

theorem cleanup_count_zero (uOk dOk : Option Nat → Bool) (pinned : AList)
    (cur : List Str) (mid : Option Nat)
    (h : ∀ pe ∈ pinned, pe.2.message_id ≠ mid) :
    (cleanup_posts uOk dOk pinned cur).1.count (Action.unpin mid) = 0
    ∧ (cleanup_posts uOk dOk pinned cur).1.count (Action.del mid) = 0 := by
  induction pinned with
  | nil => simp [cleanup_posts]
  | cons hd tl ih =>
    obtain ⟨pid, e⟩ := hd
    have hne : e.message_id ≠ mid := h (pid, e) (by simp)
    have htl := ih (fun pe hm => h pe (List.mem_cons_of_mem _ hm))
    by_cases hc : pid ∈ cur
    · simp [cleanup_posts, hc, htl]
    · simp [cleanup_posts, hc, List.count_cons, htl.1, htl.2, hne]

/-- C5: for an identifier in the prior mapping that is absent from the
current source set, `cleanup_posts` attempts unpin exactly once and delete
exactly once on its stored message, and the identifier is gone from the
mapping afterwards — for every choice of the unpin/delete outcome oracles,
whose results the source catches and ignores. -/
theorem C5_cleanup_exactly_once (uOk dOk : Option Nat → Bool) (pinned : AList)
    (cur : List Str) (pid : Str) (e : Entry)
    (hlook : alookup pinned pid = some e)
    (hcur : cur.contains pid = false)
    (hnodup : (pinned.map (fun pe => pe.2.message_id)).Nodup) :
    (cleanup_posts uOk dOk pinned cur).1.count (Action.unpin e.message_id) = 1
    ∧ (cleanup_posts uOk dOk pinned cur).1.count (Action.del e.message_id) = 1
    ∧ alookup (cleanup_posts uOk dOk pinned cur).2 pid = none := by
  induction pinned with
  | nil => simp [alookup] at hlook
  | cons hd tl ih =>
    obtain ⟨pid', e'⟩ := hd
    rw [List.map_cons, List.nodup_cons] at hnodup
    obtain ⟨hnotin, hnd⟩ := hnodup
    have hcur' : pid ∉ cur := by simpa using hcur
    by_cases heq : pid' = pid
    · have he : e' = e := by
        have := hlook
        simp [alookup, heq] at this
        exact this
      subst he
      subst heq
      have hz := cleanup_count_zero uOk dOk tl cur e'.message_id
        (fun pe hm hEq => hnotin (hEq ▸ List.mem_map_of_mem _ hm))
      refine ⟨?_, ?_, ?_⟩
      · simp [cleanup_posts, hcur', List.count_cons, hz.1]
      · simp [cleanup_posts, hcur', List.count_cons, hz.2]
      · simp [cleanup_posts, hcur', alookup_cleanup_none uOk dOk tl cur _ hcur]
    · have hlook' : alookup tl pid = some e := by
        have := hlook
        simpa [alookup, heq] using this
      have ih' := ih hlook' hnd
      have hmem : e.message_id ∈ tl.map (fun pe => pe.2.message_id) :=
        List.mem_map_of_mem _ (alookup_mem tl pid e hlook')
      by_cases hc : pid' ∈ cur
      · refine ⟨?_, ?_, ?_⟩
        · simp [cleanup_posts, hc, ih'.1]
        · simp [cleanup_posts, hc, ih'.2.1]
        · simp [cleanup_posts, hc, alookup, heq, ih'.2.2]
      · have hne : e'.message_id ≠ e.message_id := fun hEq => hnotin (hEq ▸ hmem)
        refine ⟨?_, ?_, ?_⟩
        · simp [cleanup_posts, hc, List.count_cons, ih'.1, hne]
        · simp [cleanup_posts, hc, List.count_cons, ih'.2.1, hne]
        · simp [cleanup_posts, hc, ih'.2.2]

/-- C5 witness: the leftover entry for `hexB` with both oracles failing. -/
theorem C5_witness :
    (cleanup_posts (fun _ => false) (fun _ => false) c5pinned []).1.count
      (Action.unpin (some 5)) = 1
    ∧ alookup (cleanup_posts (fun _ => false) (fun _ => false) c5pinned []).2 hexB = none := by
  have h := C5_cleanup_exactly_once (fun _ => false) (fun _ => false) c5pinned []
    hexB ⟨some 5, some "S".data, some "P".data⟩ rfl rfl (by simp [c5pinned])
  exact ⟨h.1, h.2.2⟩

theorem isSpecial_backslash : isSpecial '\\' = false := by decide

theorem bsIns_refl (l : Str) : BsIns l l := by
  induction l with
  | nil => exact .nil
  | cons c rest ih => exact .keep c ih

theorem bsIns_split {a b m : Str} (h : BsIns (a ++ b) m) :
    ∃ ma mb, m = ma ++ mb ∧ BsIns a ma ∧ BsIns b mb := by
  induction a generalizing m with
  | nil => exact ⟨[], m, rfl, .nil, by simpa using h⟩
  | cons c rest ih =>
    cases h with
    | keep _ h' =>
      obtain ⟨ma, mb, rfl, h1, h2⟩ := ih h'
      exact ⟨c :: ma, mb, rfl, .keep c h1, h2⟩
    | ins h' =>
      obtain ⟨ma, mb, rfl, h1, h2⟩ := ih h'
      exact ⟨'\\' :: '_' :: ma, mb, rfl, .ins h1, h2⟩

theorem bsIns_nickAux (q : Bool) (l : Str) : BsIns l (nickAux q l) := by
  induction l generalizing q with
  | nil => cases q <;> exact .nil
  | cons c rest ih =>
    cases q with
    | false =>
      by_cases hc : c = '@'
      · subst hc
        simp only [nickAux, if_pos rfl]
        exact .keep '@' (ih true)
      · simp only [nickAux, if_neg hc]
        exact .keep c (ih false)
    | true =>
      by_cases h1 : isHandleChar c
      · by_cases h2 : c = '_'
        · subst h2
          simp only [nickAux, if_pos h1, if_pos rfl]
          exact .ins (ih true)
        · simp only [nickAux, if_pos h1, if_neg h2]
          exact .keep c (ih true)
      · by_cases h3 : c = '@'
        · subst h3
          simp only [nickAux, if_neg h1, if_pos rfl]
          exact .keep '@' (ih true)
        · simp only [nickAux, if_neg h1, if_neg h3]
          exact .keep c (ih false)

theorem pOk_escape (s : Str) : ∀ prev, pOkAux prev (escape_markdown_v2 s) = true := by
  induction s with
  | nil => intro prev; rfl
  | cons c rest ih =>
    intro prev
    by_cases hc : isSpecial c
    · simp [escape_markdown_v2, hc, pOkAux, ih, isSpecial_backslash]
    · simp [escape_markdown_v2, hc, pOkAux, ih]

theorem pOk_bsIns {l l' : Str} (h : BsIns l l') :
    ∀ prev, pOkAux prev l = true → pOkAux prev l' = true := by
  induction h with
  | nil => exact fun _ h' => h'
  | keep c _ ih =>
    intro prev hp
    simp [pOkAux] at hp ⊢
    exact ⟨hp.1, ih (some c) hp.2⟩
  | ins _ ih =>
    intro prev hp
    simp [pOkAux, isSpecial_backslash] at hp ⊢
    exact ih (some '_') hp.2

/-- The nickname pass only inserts backslashes, so a decomposition of its
input yields a decomposition of its output up to `BsIns`. -/
theorem nick_decomp (m1 s m2 : Str) :
    ∃ pre mid post, nickAux false (m1 ++ s ++ m2) = pre ++ mid ++ post
      ∧ BsIns s mid := by
  have h := bsIns_nickAux false (m1 ++ s ++ m2)
  obtain ⟨ab, post, heq, h1, h2⟩ := bsIns_split h
  obtain ⟨pre, mid, heq2, h3, h4⟩ := bsIns_split h1
  exact ⟨pre, mid, post, by rw [heq, heq2], h4⟩

theorem applyLink_decomp (href : Option Str) (t pre mid post : Str)
    (h : t = pre ++ mid ++ post) :
    ∃ pre' post', applyLink href t = pre' ++ mid ++ post' := by
  cases href with
  | none => exact ⟨pre, post, by simp [applyLink, h]⟩
  | some u =>
    exact ⟨'[' :: pre, post ++ "](".data ++ u ++ [')'], by simp [applyLink, h]⟩

/-- C7: (i) the output of `escape_markdown_v2` has every occurrence of a
special character preceded by a backslash; (ii) every rendered run embeds
the escaped plain text — up to extra backslashes the nickname pass may add
in front of underscores — between a marker/link prefix and suffix, and that
embedded part keeps every special character backslash-escaped; (iii) a run
rendered for a table cell (`escape=False`) is emitted verbatim, and (iv) so
is a single-segment table-row cell: table cells skip the escaping pass. -/
theorem C7_escaping :
    (∀ s : Str, pOkAux none (escape_markdown_v2 s) = true)
    ∧ (∀ seg : Seg, ∃ pre mid post,
        parse_rich_text_one true seg = pre ++ mid ++ post
        ∧ BsIns (escape_markdown_v2 seg.plain_text) mid
        ∧ pOkAux none mid = true)
    ∧ (∀ s : Str, parse_rich_text_one false (plainSeg s) = s)
    ∧ (∀ s : Str, parse_table_row [[plainSeg s]] = s) := by
  refine ⟨fun s => pOk_escape s none, ?_, ?_, ?_⟩
  · rintro ⟨s, href, b, i, st, cd, ul⟩
    have main : ∀ m1 m2 : Str, ∃ pre mid post,
        applyLink href (nickAux false (m1 ++ escape_markdown_v2 s ++ m2))
          = pre ++ mid ++ post
        ∧ BsIns (escape_markdown_v2 s) mid ∧ pOkAux none mid = true := by
      intro m1 m2
      obtain ⟨pre, mid, post, heq, hbs⟩ := nick_decomp m1 (escape_markdown_v2 s) m2
      obtain ⟨pre', post', heq'⟩ := applyLink_decomp href _ pre mid post heq
      exact ⟨pre', mid, post', heq', hbs, pOk_bsIns hbs none (pOk_escape s none)⟩
    cases b
    · cases i
      · cases st
        · cases cd
          · cases ul
            · simpa [parse_rich_text_one, escape_telegram_nicknames,
                List.append_nil] using main [] []
            · simpa [parse_rich_text_one, escape_telegram_nicknames]
                using main "__".data "__".data
          · simpa [parse_rich_text_one, escape_telegram_nicknames]
              using main "`".data "`".data
        · simpa [parse_rich_text_one, escape_telegram_nicknames]
            using main "~".data "~".data
      · simpa [parse_rich_text_one, escape_telegram_nicknames]
          using main "_".data "_".data
    · simpa [parse_rich_text_one, escape_telegram_nicknames]
        using main "*".data "*".data
  · intro s
    simp [parse_rich_text_one, plainSeg, applyLink]
  · intro s
    simp [parse_table_row, parse_rich_text, parse_rich_text_one, plainSeg,
      applyLink, List.intercalate]

theorem erStep_eq (acc : List (Str × Nat)) (r : Row) :
    erStep acc r = match rowPid r with
      | some pid => aset acc pid r.row_id
      | none => acc := by
  unfold erStep rowPid
  by_cases ha : r.archived
  · simp [ha]
  · simp only [ha, if_neg (by simp : ¬False)]
    cases r.href with
    | none => simp
    | some u =>
      by_cases hu : u = []
      · simp [hu]
      · simp only [hu, if_neg hu]
        cases findHex32 u <;> simp

theorem gsdmStep_eq (acc : AList) (r : Row) :
    gsdmStep acc r = match rowPid r with
      | some pid => aset acc pid (entryOf r)
      | none => acc := by
  unfold gsdmStep rowPid entryOf midOf
  by_cases ha : r.archived
  · simp [ha]
  · simp only [ha, if_neg (by simp : ¬False)]
    cases r.href with
    | none => simp
    | some u =>
      by_cases hu : u = []
      · simp [hu]
      · simp only [hu, if_neg hu, Option.getD_some]
        cases findHex32 u <;> simp

theorem mem_aset_self {β : Type} (l : List (Str × β)) (k : Str) (v : β) :
    (k, v) ∈ aset l k v := by
  induction l with
  | nil => simp [aset]
  | cons hd tl ih =>
    by_cases h : hd.1 = k <;> simp [aset, h, ih]

theorem mem_aset_preserve {β : Type} (l : List (Str × β)) (k : Str) (v : β)
    (pe : Str × β) (h : pe ∈ l) (hne : pe.1 ≠ k) : pe ∈ aset l k v := by
  induction l with
  | nil => simp at h
  | cons hd tl ih =>
    by_cases h1 : hd.1 = k
    · rcases List.mem_cons.mp h with h' | h'
      · exact absurd (h' ▸ h1) hne
      · simp [aset, h1, h']
    · rcases List.mem_cons.mp h with h' | h'
      · simp [aset, h1, h']
      · simp [aset, h1, ih h']

theorem ex_go_pairs (db : List Row) :
    ∀ (acc : List (Str × Nat)) (pe : Str × Nat),
      pe ∈ existing_rows_go acc db →
      pe ∈ acc ∨ ∃ r ∈ db, rowPid r = some pe.1 ∧ r.row_id = pe.2 := by
  induction db with
  | nil => intro acc pe h; exact Or.inl h
  | cons r0 rest ih =>
    intro acc pe h
    rcases ih (erStep acc r0) pe h with h' | ⟨r, hr, h1, h2⟩
    · rw [erStep_eq] at h'
      cases hk : rowPid r0 with
      | none => rw [hk] at h'; exact Or.inl h'
      | some k =>
        rw [hk] at h'
        rcases mem_aset acc k r0.row_id pe h' with h'' | h''
        · exact Or.inr ⟨r0, by simp, by simp [h'', hk]⟩
        · exact Or.inl h''
    · exact Or.inr ⟨r, List.mem_cons_of_mem _ hr, h1, h2⟩

theorem ex_go_preserve (db : List Row) :
    ∀ (acc : List (Str × Nat)) (pe : Str × Nat), pe ∈ acc →
      (∀ r ∈ db, rowPid r ≠ some pe.1) → pe ∈ existing_rows_go acc db := by
  induction db with
  | nil => intro acc pe h _; exact h
  | cons r0 rest ih =>
    intro acc pe h hno
    refine ih _ _ ?_ (fun r hr => hno r (List.mem_cons_of_mem _ hr))
    rw [erStep_eq]
    cases hk : rowPid r0 with
    | none => exact h
    | some k =>
      refine mem_aset_preserve _ _ _ _ h ?_
      intro hEq
      exact hno r0 (by simp) (by rw [hk, hEq])

theorem ex_go_enter (db : List Row) :
    ∀ (acc : List (Str × Nat)) (r : Row) (pid : Str),
      r ∈ db → rowPid r = some pid → (db.filterMap rowPid).Nodup →
      (pid, r.row_id) ∈ existing_rows_go acc db := by
  induction db with
  | nil => intro _ r _ h; simp at h
  | cons r0 rest ih =>
    intro acc r pid hr hp hnd
    rcases List.mem_cons.mp hr with h' | h'
    · subst h'
      rw [List.filterMap_cons, hp] at hnd
      rw [List.nodup_cons] at hnd
      refine ex_go_preserve rest _ _ ?_ ?_
      · rw [erStep_eq, hp]
        exact mem_aset_self acc pid r.row_id
      · intro r' hr' hEq
        exact hnd.1 (List.mem_filterMap.mpr ⟨r', hr', hEq⟩)
    · refine ih _ r pid h' hp ?_
      rw [List.filterMap_cons] at hnd
      cases hk : rowPid r0 with
      | none => rwa [hk] at hnd
      | some k => rw [hk, List.nodup_cons] at hnd; exact hnd.2

theorem ex_mem (db : List Row) (r : Row) (pid : Str) (hr : r ∈ db)
    (hp : rowPid r = some pid) (hnd : (activePids db).Nodup) :
    (pid, r.row_id) ∈ existing_rows db :=
  ex_go_enter db [] r pid hr hp hnd

theorem data_ids_mem (sd : List SyncTuple) (tup : SyncTuple) (h : tup ∈ sd) :
    ((findHex32 tup.2.1).getD []) ∈ data_ids sd := by
  induction sd with
  | nil => simp at h
  | cons hd tl ih =>
    obtain ⟨t, nu, tu, dt⟩ := hd
    rcases List.mem_cons.mp h with h' | h'
    · subst h'; simp [data_ids]
    · simp [data_ids, ih h']

theorem upsert_keep (ex : List (Str × Nat)) :
    ∀ (sd : List SyncTuple) (db : List Row) (c : Nat) (r : Row), r ∈ db →
      (∀ tup ∈ sd, alookup ex ((findHex32 tup.2.1).getD []) ≠ some r.row_id) →
      r ∈ (upsert_rows ex db c sd).1 := by
  intro sd
  induction sd with
  | nil => intro db c r hr _; exact hr
  | cons hd tl ih =>
    obtain ⟨t, nu, tu, dt⟩ := hd
    intro db c r hr hno
    have hno' : ∀ tup ∈ tl, alookup ex ((findHex32 tup.2.1).getD []) ≠ some r.row_id :=
      fun tup htup => hno tup (List.mem_cons_of_mem _ htup)
    cases halo : alookup ex ((findHex32 nu).getD []) with
    | none =>
      simp only [upsert_rows, halo]
      exact ih _ _ r (List.mem_append_left _ hr) hno'
    | some rid =>
      have hrid : r.row_id ≠ rid := by
        intro hEq
        exact hno (t, nu, tu, dt) (by simp) (by rw [halo, hEq])
      simp only [upsert_rows, halo]
      refine ih _ _ r ?_ hno'
      exact List.mem_map.mpr ⟨r, hr, by simp [hrid]⟩

theorem archive_keeps (ids : List Str) :
    ∀ (ex : List (Str × Nat)) (db : List Row) (rid : Nat),
      (∃ r' ∈ db, r'.row_id = rid ∧ r'.archived = true) →
      ∃ r'' ∈ archive_rows ids ex db, r''.row_id = rid ∧ r''.archived = true := by
  intro ex
  induction ex with
  | nil => intro db rid h; exact h
  | cons hd tl ih =>
    obtain ⟨pid0, rid0⟩ := hd
    intro db rid h
    obtain ⟨r', hr', h1, h2⟩ := h
    by_cases hc : ids.contains pid0
    · simp only [archive_rows, if_pos hc]
      exact ih db rid ⟨r', hr', h1, h2⟩
    · simp only [archive_rows, if_neg hc]
      refine ih _ rid ?_
      by_cases hx : r'.row_id = rid0
      · exact ⟨⟨r'.row_id, r'.title, r'.href, r'.tg_url, r'.date_start, true⟩,
          List.mem_map.mpr ⟨r', hr', by simp [hx]⟩, h1, rfl⟩
      · exact ⟨r', List.mem_map.mpr ⟨r', hr', by simp [hx]⟩, h1, h2⟩

theorem archive_hits (ids : List Str) :
    ∀ (ex : List (Str × Nat)) (db : List Row) (r : Row) (pid : Str),
      (pid, r.row_id) ∈ ex → ids.contains pid = false → r ∈ db →
      (∀ pr ∈ ex, pr.2 = r.row_id → pr.1 = pid) →
      ∃ r'' ∈ archive_rows ids ex db, r''.row_id = r.row_id ∧ r''.archived = true := by
  intro ex
  induction ex with
  | nil => intro db r pid h; simp at h
  | cons hd tl ih =>
    obtain ⟨pid0, rid0⟩ := hd
    intro db r pid hmem hid hr huniq
    by_cases hx : rid0 = r.row_id
    · have hpid0 : pid0 = pid := huniq (pid0, rid0) (by simp) hx
      subst hpid0
      have hc : ¬ (ids.contains pid0 = true) := by rw [hid]; simp
      simp only [archive_rows, if_neg hc]
      refine archive_keeps ids tl _ r.row_id ?_
      exact ⟨⟨r.row_id, r.title, r.href, r.tg_url, r.date_start, true⟩,
        List.mem_map.mpr ⟨r, hr, by simp [hx.symm]⟩, rfl, rfl⟩
    · have hmem' : (pid, r.row_id) ∈ tl := by
        rcases List.mem_cons.mp hmem with h' | h'
        · exact absurd (congrArg Prod.snd h').symm hx
        · exact h'
      have huniq' : ∀ pr ∈ tl, pr.2 = r.row_id → pr.1 = pid :=
        fun pr hpr => huniq pr (List.mem_cons_of_mem _ hpr)
      by_cases hc : ids.contains pid0
      · simp only [archive_rows, if_pos hc]
        exact ih db r pid hmem' hid hr huniq'
      · simp only [archive_rows, if_neg hc]
        refine ih _ r pid hmem' hid ?_ huniq'
        exact List.mem_map.mpr ⟨r, hr, by simp [Ne.symm hx]⟩

theorem cleanup_fst_eq (uOk dOk : Option Nat → Bool) (pinned : AList) (cur : List Str) :
    (cleanup_posts uOk dOk pinned cur).1
      = ((pinned.filter (fun pe => !(cur.contains pe.1))).map
          (fun pe => [Action.unpin pe.2.message_id, Action.del pe.2.message_id])).flatten := by
  induction pinned with
  | nil => simp [cleanup_posts]
  | cons hd tl ih =>
    obtain ⟨pid, e⟩ := hd
    by_cases hc : pid ∈ cur <;> simp [cleanup_posts, hc, List.filter_cons, ih]

theorem cleanup_snd_eq (uOk dOk : Option Nat → Bool) (pinned : AList) (cur : List Str) :
    (cleanup_posts uOk dOk pinned cur).2
      = pinned.filter (fun pe => cur.contains pe.1) := by
  induction pinned with
  | nil => simp [cleanup_posts]
  | cons hd tl ih =>
    obtain ⟨pid, e⟩ := hd
    by_cases hc : pid ∈ cur <;> simp [cleanup_posts, hc, List.filter_cons, ih]

/-- C1 (amended): the two "no longer present" passes are driven by different
sets.  (i) `cleanup_posts` retires exactly the prior-mapping identifiers not
in `current_page_ids` (which contains excluded pages): its action list is one
unpin and one delete per such entry and its surviving mapping is exactly the
entries whose id is current.  (ii) `update_sync_database` archives the active
extractable rows whose page id is missing from `sync_data`'s ids — which is
where excluded pages are missing — whenever `sync_data` is nonempty.  So a
previously synced page that is still present but now excluded is archived by
(ii) while (i) does not retire its message. -/
theorem C1_amended :
    (∀ (uOk dOk : Option Nat → Bool) (pinned : AList) (cur : List Str),
      (cleanup_posts uOk dOk pinned cur).1
        = ((pinned.filter (fun pe => !(cur.contains pe.1))).map
            (fun pe => [Action.unpin pe.2.message_id, Action.del pe.2.message_id])).flatten
      ∧ (cleanup_posts uOk dOk pinned cur).2
        = pinned.filter (fun pe => cur.contains pe.1))
    ∧ (∀ (db : List Row) (sd : List SyncTuple) (c : Nat) (r : Row) (pid : Str),
        sd ≠ [] → r ∈ db → rowPid r = some pid →
        (data_ids sd).contains pid = false →
        (db.map Row.row_id).Nodup → (activePids db).Nodup →
        ∃ r' ∈ (update_sync_database db sd c).1,
          r'.row_id = r.row_id ∧ r'.archived = true) := by
  constructor
  · exact fun uOk dOk pinned cur => ⟨cleanup_fst_eq uOk dOk pinned cur, cleanup_snd_eq uOk dOk pinned cur⟩
  · intro db sd c r pid hsd hr hp hid hnd1 hnd2
    have hinj : ∀ x ∈ db, ∀ y ∈ db, x.row_id = y.row_id → x = y :=
      List.inj_on_of_nodup_map hnd1
    have hexmem : (pid, r.row_id) ∈ existing_rows db := ex_mem db r pid hr hp hnd2
    have hpairs : ∀ pr ∈ existing_rows db, pr.2 = r.row_id → pr.1 = pid := by
      intro pr hpr hval
      rcases ex_go_pairs db [] pr hpr with h' | ⟨row, hrow, h1, h2⟩
      · simp at h'
      · have : row = r := hinj row hrow r hr (by rw [h2, hval])
        rw [this, hp] at h1
        exact (Option.some.inj h1).symm
    have hkeep : r ∈ (upsert_rows (existing_rows db) db c sd).1 := by
      refine upsert_keep _ sd db c r hr ?_
      intro tup htup halo
      have hpair := alookup_mem _ _ _ halo
      have hkey : (findHex32 tup.2.1).getD [] = pid := hpairs _ hpair rfl
      have hmem := data_ids_mem sd tup htup
      rw [hkey] at hmem
      have : pid ∉ data_ids sd := by simpa using hid
      exact this hmem
    unfold update_sync_database
    rw [if_neg hsd]
    exact archive_hits (data_ids sd) (existing_rows db)
      (upsert_rows (existing_rows db) db c sd).1 r pid hexmem hid hkeep hpairs

/-- C1 witness: the cleanup characterization at the two-row store, and the
archive of row 0 (page `P`, still present but excluded, hence absent from
`sync_data`). -/
theorem C1_witness :
    (cleanup_posts (fun _ => true) (fun _ => true) c1pinned [hexB, hexC]).2
      = c1pinned.filter (fun pe => ([hexB, hexC].contains pe.1))
    ∧ ∃ r' ∈ (update_sync_database c1db [("Q".data, notionUrl hexC, [], some "T".data)] 2).1,
        r'.row_id = 0 ∧ r'.archived = true := by
  refine ⟨(C1_amended.1 (fun _ => true) (fun _ => true) c1pinned [hexB, hexC]).2, ?_⟩
  exact C1_amended.2 c1db [("Q".data, notionUrl hexC, [], some "T".data)] 2
    ⟨0, "P".data, some (notionUrl hexB), some (tgUrlOf chat0 3), some "T".data, false⟩ hexB
    (by decide) (by decide) (by decide) (by decide) (by decide) (by decide)

theorem findHex32_cons_nonhex (c : Char) (l : Str) (hc : isHexLower c = false) :
    findHex32 (c :: l) = findHex32 l := by
  have hall : ((c :: l).take 32).all isHexLower = false := by
    show ((c :: l.take 31).all isHexLower) = false
    simp [List.all_cons, hc]
  simp only [findHex32]
  rw [hall]
  simp

theorem findHex32_append_nonhex (pre l : Str)
    (h : ∀ c ∈ pre, isHexLower c = false) : findHex32 (pre ++ l) = findHex32 l := by
  induction pre with
  | nil => rfl
  | cons c rest ih =>
    rw [List.cons_append, findHex32_cons_nonhex c _ (h c (by simp))]
    exact ih (fun c' hc' => h c' (List.mem_cons_of_mem _ hc'))

theorem findHex32_hex32 (pid : Str) (h : isHex32 pid = true) :
    findHex32 pid = some pid := by
  rw [isHex32, Bool.and_eq_true] at h
  obtain ⟨h1, h2⟩ := h
  have h1' : pid.length = 32 := by simpa using h1
  have htake : pid.take 32 = pid := List.take_of_length_le (by rw [h1'])
  cases pid with
  | nil => simp at h1'
  | cons c rest =>
    simp only [findHex32, htake]
    simp [h1', h2]

theorem findHex32_notionUrl (pid : Str) (h : isHex32 pid = true) :
    findHex32 (notionUrl pid) = some pid := by
  rw [notionUrl, findHex32_append_nonhex _ _ (by decide)]
  exact findHex32_hex32 pid h

theorem upsert_nil_ex : ∀ (sd : List SyncTuple) (db : List Row) (c : Nat),
    (upsert_rows [] db c sd).1 = db ++ createdRows c sd := by
  intro sd
  induction sd with
  | nil => intro db c; simp [upsert_rows, createdRows]
  | cons hd tl ih =>
    obtain ⟨t, nu, tu, dt⟩ := hd
    intro db c
    simp only [upsert_rows, alookup, createdRows]
    rw [ih]
    simp

theorem update_nil_db (sd : List SyncTuple) (c : Nat) (hsd : sd ≠ []) :
    (update_sync_database [] sd c).1 = createdRows c sd := by
  unfold update_sync_database
  rw [if_neg hsd]
  show (archive_rows (data_ids sd) (existing_rows []) (upsert_rows (existing_rows []) [] c sd).1)
    = createdRows c sd
  have hex : existing_rows [] = ([] : List (Str × Nat)) := rfl
  rw [hex, upsert_nil_ex sd [] c]
  rfl

theorem createdRows_pairs : ∀ (sd : List SyncTuple) (c : Nat) (r : Row),
    r ∈ createdRows c sd →
    ∃ tup ∈ sd, r.title = tup.1 ∧ r.href = some tup.2.1
      ∧ r.date_start = tup.2.2.2 ∧ r.archived = false := by
  intro sd
  induction sd with
  | nil => intro c r h; simp [createdRows] at h
  | cons hd tl ih =>
    obtain ⟨t, nu, tu, dt⟩ := hd
    intro c r h
    rcases List.mem_cons.mp h with h' | h'
    · exact ⟨(t, nu, tu, dt), by simp, by simp [h']⟩
    · obtain ⟨tup, htup, hrest⟩ := ih (c + 1) r h'
      exact ⟨tup, List.mem_cons_of_mem _ htup, hrest⟩

theorem createdRows_of_mem : ∀ (sd : List SyncTuple) (c : Nat) (tup : SyncTuple),
    tup ∈ sd →
    ∃ r ∈ createdRows c sd, r.title = tup.1 ∧ r.href = some tup.2.1
      ∧ r.date_start = tup.2.2.2 ∧ r.archived = false := by
  intro sd
  induction sd with
  | nil => intro c tup h; simp at h
  | cons hd tl ih =>
    obtain ⟨t, nu, tu, dt⟩ := hd
    intro c tup h
    rcases List.mem_cons.mp h with h' | h'
    · exact ⟨⟨c, t, some nu, optStr tu, dt, false⟩, by simp [createdRows], by simp [h']⟩
    · obtain ⟨r, hr, hrest⟩ := ih (c + 1) tup h'
      exact ⟨r, by simp [createdRows, hr], hrest⟩

theorem createdRows_keys : ∀ (sd : List SyncTuple) (c : Nat),
    (∀ tup ∈ sd, tup.2.1 ≠ [] ∧ (findHex32 tup.2.1).isSome) →
    (createdRows c sd).filterMap rowPid
      = sd.map (fun tup => (findHex32 tup.2.1).getD []) := by
  intro sd
  induction sd with
  | nil => intro c _; rfl
  | cons hd tl ih =>
    obtain ⟨t, nu, tu, dt⟩ := hd
    intro c h
    obtain ⟨hnu, hsome⟩ := h (t, nu, tu, dt) (by simp)
    obtain ⟨k, hk⟩ := Option.isSome_iff_exists.mp hsome
    have hrow : rowPid ⟨c, t, some nu, optStr tu, dt, false⟩ = some k := by
      simp [rowPid, hnu, hk]
    simp only [createdRows, List.filterMap_cons, hrow]
    rw [ih (c + 1) (fun tup htup => h tup (List.mem_cons_of_mem _ htup))]
    simp [hk]

theorem gsdm_go_pairs (rows : List Row) :
    ∀ (acc : AList) (pe : Str × Entry),
      pe ∈ gsdm_go acc rows →
      pe ∈ acc ∨ ∃ r ∈ rows, rowPid r = some pe.1 := by
  induction rows with
  | nil => intro acc pe h; exact Or.inl h
  | cons r0 rest ih =>
    intro acc pe h
    rcases ih (gsdmStep acc r0) pe h with h' | ⟨r, hr, h1⟩
    · rw [gsdmStep_eq] at h'
      cases hk : rowPid r0 with
      | none => rw [hk] at h'; exact Or.inl h'
      | some k =>
        rw [hk] at h'
        rcases mem_aset acc k (entryOf r0) pe h' with h'' | h''
        · exact Or.inr ⟨r0, by simp, by simp [h'', hk]⟩
        · exact Or.inl h''
    · exact Or.inr ⟨r, List.mem_cons_of_mem _ hr, h1⟩

theorem gsdm_lookup_stable (rows : List Row) :
    ∀ (acc : AList) (pid : Str), (∀ r ∈ rows, rowPid r ≠ some pid) →
      alookup (gsdm_go acc rows) pid = alookup acc pid := by
  induction rows with
  | nil => intro acc pid _; rfl
  | cons r0 rest ih =>
    intro acc pid hno
    rw [show gsdm_go acc (r0 :: rest) = gsdm_go (gsdmStep acc r0) rest from rfl,
      ih _ pid (fun r hr => hno r (List.mem_cons_of_mem _ hr)), gsdmStep_eq]
    cases hk : rowPid r0 with
    | none => rfl
    | some k =>
      refine alookup_aset_ne acc k pid (entryOf r0) ?_
      intro hEq
      exact hno r0 (by simp) (by rw [hk, hEq])

theorem gsdm_lookup (rows : List Row) :
    ∀ (acc : AList) (r : Row) (pid : Str),
      r ∈ rows → rowPid r = some pid → (rows.filterMap rowPid).Nodup →
      alookup (gsdm_go acc rows) pid = some (entryOf r) := by
  induction rows with
  | nil => intro _ r _ h; simp at h
  | cons r0 rest ih =>
    intro acc r pid hr hp hnd
    rcases List.mem_cons.mp hr with h' | h'
    · subst h'
      rw [List.filterMap_cons, hp, List.nodup_cons] at hnd
      rw [show gsdm_go acc (r :: rest) = gsdm_go (gsdmStep acc r) rest from rfl]
      rw [gsdm_lookup_stable rest _ pid
        (fun r' hr' hEq => hnd.1 (List.mem_filterMap.mpr ⟨r', hr', hEq⟩))]
      rw [gsdmStep_eq, hp]
      exact alookup_aset_self acc pid (entryOf r)
    · rw [List.filterMap_cons] at hnd
      have hpidmem : pid ∈ rest.filterMap rowPid := List.mem_filterMap.mpr ⟨r, h', hp⟩
      rw [show gsdm_go acc (r0 :: rest) = gsdm_go (gsdmStep acc r0) rest from rfl]
      cases hk : rowPid r0 with
      | none =>
        rw [hk] at hnd
        exact ih _ r pid h' hp hnd
      | some k =>
        rw [hk, List.nodup_cons] at hnd
        exact ih _ r pid h' hp hnd.2

theorem processPage_excluded (parse : Str → Option Int) (chat : Str) (fuel : Nat)
    (b : PageBehavior) (pinned : AList) (p : Page)
    (hskip : startsWithSkip (pyStrip p.title) = true) :
    processPage parse chat fuel b pinned p = ([], pinned, []) := by
  simp [processPage, hskip]

theorem processPage_unchanged (parse : Str → Option Int) (chat : Str) (fuel : Nat)
    (b : PageBehavior) (pinned : AList) (p : Page)
    (hskip : startsWithSkip (pyStrip p.title) = false)
    (heq : to_timestamp parse (tsOf p.last_edited)
      = to_timestamp parse (tsOf (pinnedLE pinned (normalize_page_id p.id)))) :
    processPage parse chat fuel b pinned p
      = ([], pinned,
         [(p.title, notionUrl (normalize_page_id p.id),
           (if truthy (pinnedMsgId pinned (normalize_page_id p.id))
            then tgUrlOf chat ((pinnedMsgId pinned (normalize_page_id p.id)).getD 0)
            else []),
           p.last_edited)]) := by
  have hcond : ¬ (to_timestamp parse (tsOf p.last_edited)
      ≠ to_timestamp parse (tsOf (pinnedLE pinned (normalize_page_id p.id)))) :=
    fun h => h heq
  simp [processPage, hskip, hcond]

theorem processPage_sd_proj (parse : Str → Option Int) (chat : Str) (fuel : Nat)
    (b : PageBehavior) (pinned : AList) (p : Page)
    (hskip : startsWithSkip (pyStrip p.title) = false) :
    ((processPage parse chat fuel b pinned p).2.2).map tupKey
      = [(p.title, notionUrl (normalize_page_id p.id), p.last_edited)] := by
  by_cases hts : to_timestamp parse (tsOf p.last_edited)
      ≠ to_timestamp parse (tsOf (pinnedLE pinned (normalize_page_id p.id)))
  · by_cases htr : truthy (pinnedMsgId pinned (normalize_page_id p.id)) = true
    · by_cases hep : (b.edit_ok && b.pin_ok) = true
      · simp [processPage, hskip, hts, htr, hep, tupKey]
      · simp [processPage, hskip, hts, htr, hep, tupKey]
    · simp [processPage, hskip, hts, htr, tupKey]
  · simp [processPage, hskip, hts, tupKey]

theorem processPages_ids (parse : Str → Option Int) (chat : Str) (fuel : Nat)
    (bfun : Str → PageBehavior) :
    ∀ (pages : List Page) (pinned : AList),
      (processPages parse chat fuel bfun pinned pages).2.2.1
        = pages.map (fun p => normalize_page_id p.id) := by
  intro pages
  induction pages with
  | nil => intro pinned; rfl
  | cons p rest ih => intro pinned; simp [processPages, ih]

theorem processPages_proj (parse : Str → Option Int) (chat : Str) (fuel : Nat)
    (bfun : Str → PageBehavior) :
    ∀ (pages : List Page) (pinned : AList),
      ((processPages parse chat fuel bfun pinned pages).2.2.2).map tupKey
        = (pages.filter (fun p => !(startsWithSkip (pyStrip p.title)))).map
            (fun p => (p.title, notionUrl (normalize_page_id p.id), p.last_edited)) := by
  intro pages
  induction pages with
  | nil => intro pinned; rfl
  | cons p rest ih =>
    intro pinned
    by_cases hskip : startsWithSkip (pyStrip p.title) = true
    · have hpp := processPage_excluded parse chat fuel (bfun (normalize_page_id p.id)) pinned p hskip
      simp [processPages, hpp, List.filter_cons, hskip, ih]
    · have hb : startsWithSkip (pyStrip p.title) = false := by
        revert hskip; cases startsWithSkip (pyStrip p.title) <;> simp
      have hpp := processPage_sd_proj parse chat fuel (bfun (normalize_page_id p.id)) pinned p hb
      simp [processPages, List.filter_cons, hb, List.map_append, hpp, ih]

theorem processPages_no_actions (parse : Str → Option Int) (chat : Str) (fuel : Nat)
    (bfun : Str → PageBehavior) (pinned : AList) :
    ∀ (pages : List Page),
      (∀ p ∈ pages, startsWithSkip (pyStrip p.title) = false →
        to_timestamp parse (tsOf p.last_edited)
          = to_timestamp parse (tsOf (pinnedLE pinned (normalize_page_id p.id)))) →
      (processPages parse chat fuel bfun pinned pages).1 = []
      ∧ (processPages parse chat fuel bfun pinned pages).2.1 = pinned := by
  intro pages
  induction pages with
  | nil => intro _; exact ⟨rfl, rfl⟩
  | cons p rest ih =>
    intro h
    have hrest := ih (fun q hq => h q (List.mem_cons_of_mem _ hq))
    by_cases hskip : startsWithSkip (pyStrip p.title) = true
    · have hpp := processPage_excluded parse chat fuel (bfun (normalize_page_id p.id)) pinned p hskip
      constructor <;> simp [processPages, hpp, hrest.1, hrest.2]
    · have hb : startsWithSkip (pyStrip p.title) = false := by
        revert hskip; cases startsWithSkip (pyStrip p.title) <;> simp
      have hpp := processPage_unchanged parse chat fuel (bfun (normalize_page_id p.id)) pinned p hb
        (h p (by simp) hb)
      constructor <;> simp [processPages, hpp, hrest.1, hrest.2]

theorem cleanup_no_removal (uOk dOk : Option Nat → Bool) :
    ∀ (pinned : AList) (cur : List Str),
      (∀ pe ∈ pinned, pe.1 ∈ cur) → cleanup_posts uOk dOk pinned cur = ([], pinned) := by
  intro pinned
  induction pinned with
  | nil => intro cur _; rfl
  | cons hd tl ih =>
    intro cur h
    obtain ⟨pid, e⟩ := hd
    have hc : pid ∈ cur := h (pid, e) (by simp)
    simp [cleanup_posts, hc, ih cur (fun pe hpe => h pe (List.mem_cons_of_mem _ hpe))]

theorem sync_no_actions (parse : Str → Option Int) (chat : Str) (fuel : Nat)
    (bfun : Str → PageBehavior) (uOk dOk : Option Nat → Bool) (pinned : AList)
    (db : List Row) (c : Nat) (pages : List Page)
    (hts : ∀ p ∈ pages, startsWithSkip (pyStrip p.title) = false →
      to_timestamp parse (tsOf p.last_edited)
        = to_timestamp parse (tsOf (pinnedLE pinned (normalize_page_id p.id))))
    (hkeys : ∀ pe ∈ pinned, pe.1 ∈ pages.map (fun p => normalize_page_id p.id)) :
    (sync parse chat fuel bfun uOk dOk pinned db c pages).1 = [] := by
  have hlp := processPages_no_actions parse chat fuel bfun pinned pages hts
  have hids := processPages_ids parse chat fuel bfun pages pinned
  have hcl : cleanup_posts uOk dOk
      (processPages parse chat fuel bfun pinned pages).2.1
      (processPages parse chat fuel bfun pinned pages).2.2.1 = ([], pinned) := by
    rw [hlp.2, hids]
    exact cleanup_no_removal uOk dOk pinned _ hkeys
  by_cases hsd : (processPages parse chat fuel bfun pinned pages).2.2.2 = []
  · simp [sync, hsd, hlp.1, hcl]
  · simp [sync, hsd, hlp.1, hcl]

theorem pass1_pinned (parse : Str → Option Int) (chat : Str) (fuel : Nat)
    (bfun : Str → PageBehavior) (uOk dOk : Option Nat → Bool) (pinned0 : AList)
    (c : Nat) (pages : List Page)
    (hhex : ∀ p ∈ pages, isHex32 (normalize_page_id p.id) = true)
    (hnd : (pages.map (fun p => normalize_page_id p.id)).Nodup) :
    (∀ p ∈ pages, startsWithSkip (pyStrip p.title) = false →
      ∃ e, alookup (sync parse chat fuel bfun uOk dOk pinned0 [] c pages).2.1
          (normalize_page_id p.id) = some e ∧ e.last_edited = p.last_edited)
    ∧ (∀ pe ∈ (sync parse chat fuel bfun uOk dOk pinned0 [] c pages).2.1,
        pe.1 ∈ pages.map (fun p => normalize_page_id p.id)) := by
  have hproj := processPages_proj parse chat fuel bfun pages pinned0
  have hids := processPages_ids parse chat fuel bfun pages pinned0
  by_cases hsd : (processPages parse chat fuel bfun pinned0 pages).2.2.2 = []
  · have hsync : (sync parse chat fuel bfun uOk dOk pinned0 [] c pages).2.1
        = (cleanup_posts uOk dOk
            (processPages parse chat fuel bfun pinned0 pages).2.1
            (processPages parse chat fuel bfun pinned0 pages).2.2.1).2 := by
      simp [sync, hsd]
    have hfilter : pages.filter (fun p => !(startsWithSkip (pyStrip p.title))) = [] := by
      have := hproj
      rw [hsd] at this
      exact (List.map_eq_nil_iff.mp this.symm)
    constructor
    · intro p hp hskipf
      exfalso
      have : p ∈ pages.filter (fun p => !(startsWithSkip (pyStrip p.title))) :=
        List.mem_filter.mpr ⟨hp, by simp [hskipf]⟩
      rw [hfilter] at this
      simp at this
    · intro pe hpe
      rw [hsync, cleanup_snd_eq] at hpe
      have hm := List.mem_filter.mp hpe
      rw [hids] at hm
      simpa using hm.2
  · have hsync : (sync parse chat fuel bfun uOk dOk pinned0 [] c pages).2.1
        = get_sync_db_mapping
            (createdRows c (processPages parse chat fuel bfun pinned0 pages).2.2.2) := by
      simp only [sync]
      rw [if_neg hsd, update_nil_db _ c hsd]
    have hsd_guard : ∀ tup ∈ (processPages parse chat fuel bfun pinned0 pages).2.2.2,
        tup.2.1 ≠ [] ∧ (findHex32 tup.2.1).isSome := by
      intro tup htup
      have hmem : tupKey tup
          ∈ ((processPages parse chat fuel bfun pinned0 pages).2.2.2).map tupKey :=
        List.mem_map_of_mem _ htup
      rw [hproj] at hmem
      obtain ⟨p, hpf, hpk⟩ := List.mem_map.mp hmem
      have hnu : tup.2.1 = notionUrl (normalize_page_id p.id) := by
        have := congrArg (fun q => q.2.1) hpk
        simpa [tupKey] using this.symm
      have hhexp := hhex p (List.mem_of_mem_filter hpf)
      refine ⟨?_, ?_⟩
      · rw [hnu]; simp [notionUrl]
      · rw [hnu, findHex32_notionUrl _ hhexp]; rfl
    have hkeys_eq : (createdRows c (processPages parse chat fuel bfun pinned0 pages).2.2.2).filterMap rowPid
        = (pages.filter (fun p => !(startsWithSkip (pyStrip p.title)))).map
            (fun p => normalize_page_id p.id) := by
      rw [createdRows_keys _ c hsd_guard]
      have hmm : ((processPages parse chat fuel bfun pinned0 pages).2.2.2).map
            (fun tup => (findHex32 tup.2.1).getD [])
          = (((processPages parse chat fuel bfun pinned0 pages).2.2.2).map tupKey).map
              (fun q => (findHex32 q.2.1).getD []) := by
        rw [List.map_map]; rfl
      rw [hmm, hproj, List.map_map]
      refine List.map_congr_left ?_
      intro p hp
      have := findHex32_notionUrl (normalize_page_id p.id) (hhex p (List.mem_of_mem_filter hp))
      simp [this]
    have hnodup_keys :
        ((createdRows c (processPages parse chat fuel bfun pinned0 pages).2.2.2).filterMap rowPid).Nodup := by
      rw [hkeys_eq]
      exact List.Nodup.sublist (List.Sublist.map _ (List.filter_sublist _)) hnd
    constructor
    · intro p hp hskipf
      have hmem : ((p.title, notionUrl (normalize_page_id p.id), p.last_edited) : Str × Str × Option Str)
          ∈ ((processPages parse chat fuel bfun pinned0 pages).2.2.2).map tupKey := by
        rw [hproj]
        exact List.mem_map_of_mem _ (List.mem_filter.mpr ⟨hp, by simp [hskipf]⟩)
      obtain ⟨tup, htup, htk⟩ := List.mem_map.mp hmem
      have hnu : tup.2.1 = notionUrl (normalize_page_id p.id) := by
        have := congrArg (fun q => q.2.1) htk
        simpa [tupKey] using this
      have hdt : tup.2.2.2 = p.last_edited := by
        have := congrArg (fun q => q.2.2) htk
        simpa [tupKey] using this
      obtain ⟨r, hrmem, hrt, hrh, hrd, hra⟩ := createdRows_of_mem _ c tup htup
      have hrpid : rowPid r = some (normalize_page_id p.id) := by
        have hfind := findHex32_notionUrl (normalize_page_id p.id) (hhex p hp)
        have hne : notionUrl (normalize_page_id p.id) ≠ [] := by simp [notionUrl]
        simp [rowPid, hra, hrh, hnu, hne, hfind]
      refine ⟨entryOf r, ?_, ?_⟩
      · rw [hsync]
        exact gsdm_lookup _ [] r _ hrmem hrpid hnodup_keys
      · simp [entryOf, hrd, hdt]
    · intro pe hpe
      rw [hsync] at hpe
      rcases gsdm_go_pairs _ [] pe hpe with h' | ⟨r, hr, hkey⟩
      · simp at h'
      · have hks : pe.1 ∈ (createdRows c (processPages parse chat fuel bfun pinned0 pages).2.2.2).filterMap rowPid :=
          List.mem_filterMap.mpr ⟨r, hr, hkey⟩
        rw [hkeys_eq] at hks
        obtain ⟨p, hpf, hpe1⟩ := List.mem_map.mp hks
        exact hpe1 ▸ List.mem_map_of_mem _ (List.mem_of_mem_filter hpf)

/-- C2 (amended): (i) for a page whose timestamp parses equal to the stored
one, the per-page step issues no destination call, leaves the in-memory
mapping untouched, and carries the existing destination reference forward in
its `sync_data` tuple (whose title and timestamp string are nonetheless
refreshed from the source, so the persisted entry need not be identical —
see the counterexample); (ii) running a pass twice over the same pages
(distinct 32-hex ids, store initially empty) issues no destination call at
all on the second run. -/
theorem C2_amended :
    (∀ (parse : Str → Option Int) (chat : Str) (fuel : Nat) (b : PageBehavior)
        (pinned : AList) (p : Page),
      startsWithSkip (pyStrip p.title) = false →
      to_timestamp parse (tsOf p.last_edited)
        = to_timestamp parse (tsOf (pinnedLE pinned (normalize_page_id p.id))) →
      processPage parse chat fuel b pinned p
        = ([], pinned,
           [(p.title, notionUrl (normalize_page_id p.id),
             (if truthy (pinnedMsgId pinned (normalize_page_id p.id))
              then tgUrlOf chat ((pinnedMsgId pinned (normalize_page_id p.id)).getD 0)
              else []),
             p.last_edited)]))
    ∧ (∀ (parse : Str → Option Int) (chat : Str) (fuel : Nat)
        (bfun1 bfun2 : Str → PageBehavior) (uOk1 dOk1 uOk2 dOk2 : Option Nat → Bool)
        (pinned0 : AList) (c : Nat) (pages : List Page),
        (∀ p ∈ pages, isHex32 (normalize_page_id p.id) = true) →
        (pages.map (fun p => normalize_page_id p.id)).Nodup →
        (sync parse chat fuel bfun2 uOk2 dOk2
          (sync parse chat fuel bfun1 uOk1 dOk1 pinned0 [] c pages).2.1
          (sync parse chat fuel bfun1 uOk1 dOk1 pinned0 [] c pages).2.2.1
          (sync parse chat fuel bfun1 uOk1 dOk1 pinned0 [] c pages).2.2.2 pages).1 = []) := by
  constructor
  · exact processPage_unchanged
  · intro parse chat fuel bfun1 bfun2 uOk1 dOk1 uOk2 dOk2 pinned0 c pages hhex hnd
    obtain ⟨hA, hB⟩ := pass1_pinned parse chat fuel bfun1 uOk1 dOk1 pinned0 c pages hhex hnd
    refine sync_no_actions parse chat fuel bfun2 uOk2 dOk2 _ _ _ pages ?_ hB
    intro p hp hskipf
    obtain ⟨e, he, hle⟩ := hA p hp hskipf
    simp [pinnedLE, he, hle]

/-- C2 witness: at the concrete unchanged page the per-page step issues no
call, and the C9 scenario run twice issues no destination call on run two. -/
theorem C2_witness :
    (processPage parse0 chat0 1 (okBehavior 9) c2pinned ⟨hexB, "B".data, some "T".data, []⟩).1 = []
    ∧ (sync parse0 chat0 10 (fun _ => okBehavior 8) (fun _ => true) (fun _ => true)
        (sync parse0 chat0 10 (fun _ => okBehavior 7) (fun _ => true) (fun _ => true) [] [] 0 [c9page]).2.1
        (sync parse0 chat0 10 (fun _ => okBehavior 7) (fun _ => true) (fun _ => true) [] [] 0 [c9page]).2.2.1
        (sync parse0 chat0 10 (fun _ => okBehavior 7) (fun _ => true) (fun _ => true) [] [] 0 [c9page]).2.2.2
        [c9page]).1 = [] := by
  constructor
  · rw [C2_amended.1 parse0 chat0 1 (okBehavior 9) c2pinned
      ⟨hexB, "B".data, some "T".data, []⟩ (by decide) (by decide)]
  · exact C2_amended.2 parse0 chat0 10 (fun _ => okBehavior 7) (fun _ => okBehavior 8)
      (fun _ => true) (fun _ => true) (fun _ => true) (fun _ => true) [] 0 [c9page]
      (by decide) (by decide)

end NotionTg
